import Mathlib

/-!
Verification of the content-extraction core of `searx_plugins/ai_summarize_select_fetch.py`.

Python strings are modelled as `List Char` (one entry per code point), Python
floats as exact rationals `ℚ`, and Python ints as `Nat`.  The HTML tokenizer
(`html.parser`), the network client (`httpx`) and the generic extractor
(`trafilatura`) are external libraries; they enter the model as oracle
parameters (`lex`, `net`, `traf`).  Everything else is translated directly
from the source.
-/

set_option maxHeartbeats 1000000
set_option maxRecDepth 8000

/-! ## Definitions: the embedded program, the spec-side formulas, and the
concrete inputs of the counterexamples and witnesses -/

/-- Python `str.strip`: drop whitespace from both ends. -/
def pyStrip (l : List Char) : List Char :=
  ((l.dropWhile Char.isWhitespace).reverse.dropWhile Char.isWhitespace).reverse

/-- Maximal runs of characters satisfying `p` (helper for `str.split()` and
`re.findall` of word runs). -/
def runsByAux (p : Char → Bool) (cur : List Char) : List Char → List (List Char)
  | [] => if cur = [] then [] else [cur.reverse]
  | c :: cs =>
    if p c then runsByAux p (c :: cur) cs
    else if cur = [] then runsByAux p [] cs
    else cur.reverse :: runsByAux p [] cs

def runsBy (p : Char → Bool) (l : List Char) : List (List Char) := runsByAux p [] l

/-- Python `str.split` with no argument: maximal non-whitespace runs. -/
def pyWords (l : List Char) : List (List Char) := runsBy (fun c => ¬ c.isWhitespace) l

/-- Python `\w` character class (ASCII model): alphanumeric or underscore. -/
def isWordChar (c : Char) : Bool := c.isAlphanum || c = '_'

/-- Python `re.findall` of word runs: maximal runs of word characters. -/
def wordTokens (l : List Char) : List (List Char) := runsBy isWordChar l

/-- Is `n` a prefix of `h`? -/
def isPrefixL : List Char → List Char → Bool
  | [], _ => true
  | _ :: _, [] => false
  | a :: as, b :: bs => a = b && isPrefixL as bs

/-- Python `haystack.find(needle)`: index of the first occurrence, `none` if absent. -/
def findSub (n : List Char) : List Char → Option Nat
  | [] => if n = [] then some 0 else none
  | c :: t => if isPrefixL n (c :: t) then some 0 else (findSub n t).map (· + 1)

/-- Python `needle in haystack` (substring containment). -/
def isSubL (n h : List Char) : Bool := (findSub n h).isSome

/-- Python `text.split` on a double newline: split on each occurrence of a double newline. -/
def splitDDAux (cur : List Char) : List Char → List (List Char)
  | '\n' :: '\n' :: rest => cur.reverse :: splitDDAux [] rest
  | c :: rest => splitDDAux (c :: cur) rest
  | [] => [cur.reverse]

def splitDD (l : List Char) : List (List Char) := splitDDAux [] l

/-- Python join of parts with a double newline. -/
def joinDD : List (List Char) → List Char
  | [] => []
  | [x] => x
  | x :: y :: xs => x ++ '\n' :: '\n' :: joinDD (y :: xs)

/-- Python join of parts with a single space. -/
def joinSpace : List (List Char) → List Char
  | [] => []
  | [x] => x
  | x :: y :: xs => x ++ ' ' :: joinSpace (y :: xs)

/-- Number of occurrences of token `t` in a token list (`Counter` lookup). -/
def countOcc (t : List Char) (ws : List (List Char)) : Nat :=
  (ws.filter (fun w => w = t)).length

/-- Remove the first occurrence of `t`; the list is unchanged when `t` is absent. -/
def removeFirstOcc (t : String) : List String → List String
  | [] => []
  | x :: xs => if x = t then xs else x :: removeFirstOcc t xs

/-- Python `stack.pop(len(stack) - 1 - list(reversed(stack)).index(tag))`
wrapped in `try/except ValueError: pass`: remove the last (nearest-to-top)
occurrence of `tag`, leaving the stack unchanged when `tag` does not occur. -/
def popNearest (t : String) (l : List String) : List String :=
  (removeFirstOcc t l.reverse).reverse

/-- Python `dict(attrs).get(k, default)` with the empty default: later bindings shadow earlier ones. -/
def dictGet (attrs : List (String × List Char)) (k : String) : List Char :=
  match (attrs.filter (fun p => p.1 = k)).getLast? with
  | some p => p.2
  | none => []

namespace ContentAnalyzer

/-- Tags to exclude (ads, navigation, footers, etc.). -/
def EXCLUDED_TAGS : List String :=
  ["nav", "header", "footer", "aside", "script", "style", "iframe",
   "noscript", "form", "button", "input", "select", "textarea"]

/-- The literal regex patterns of `EXCLUDED_PATTERNS` (all but the first are
plain substrings). -/
def PATTERN_LITERALS : List (List Char) :=
  ["banner".data, "promo".data, "sponsor".data, "social".data, "share".data,
   "comment".data, "footer".data, "header".data, "nav".data, "menu".data,
   "sidebar".data, "widget".data, "popup".data, "modal".data, "cookie".data,
   "subscribe".data, "newsletter".data]

/-- The one non-literal regex of `EXCLUDED_PATTERNS` (ad, optional s or v, then dash or underscore): one of six literal substrings occurs. -/
def adPatternHit (v : List Char) : Bool :=
  (["ad-".data, "ad_".data, "ads-".data, "ads_".data, "adv-".data, "adv_".data]).any
    (fun p => isSubL p v)

/-- `any(re.search(pattern, attr_value) for pattern in EXCLUDED_PATTERNS)`. -/
def matchesExcludedPatterns (v : List Char) : Bool :=
  adPatternHit v || PATTERN_LITERALS.any (fun p => isSubL p v)

/-- High-value tags for main content. -/
def CONTENT_TAGS : List String := ["article", "main", "section", "div", "p"]

/-- The class/id check of `handle_starttag` (values are lowercased first). -/
def attrsExcluded (attrs : List (String × List Char)) : Bool :=
  matchesExcludedPatterns ((dictGet attrs "class").map Char.toLower) ||
  matchesExcludedPatterns ((dictGet attrs "id").map Char.toLower)

/-- The mutable fields of the `ContentAnalyzer` instance. -/
structure St where
  content_blocks : List (List Char)
  current_block : List (List Char)
  current_tag_stack : List String
  in_excluded : Bool
  excluded_depth : Nat
deriving DecidableEq, Repr

/-- The state set up by `__init__`. -/
def initState : St :=
  { content_blocks := [], current_block := [], current_tag_stack := [],
    in_excluded := false, excluded_depth := 0 }

/-- `handle_starttag(tag, attrs)`. -/
def handle_starttag (tag : String) (attrs : List (String × List Char)) (s : St) : St :=
  let s1 := { s with current_tag_stack := s.current_tag_stack ++ [tag] }
  if s1.in_excluded then
    { s1 with excluded_depth := s1.excluded_depth + 1 }
  else if tag ∈ EXCLUDED_TAGS then
    { s1 with in_excluded := true, excluded_depth := 1 }
  else if attrsExcluded attrs then
    { s1 with in_excluded := true, excluded_depth := 1 }
  else s1

/-- `handle_endtag(tag)`. -/
def handle_endtag (tag : String) (s : St) : St :=
  let s1 := { s with current_tag_stack := popNearest tag s.current_tag_stack }
  let s2 :=
    if s1.in_excluded then
      let d := if 0 < s1.excluded_depth then s1.excluded_depth - 1 else s1.excluded_depth
      { s1 with excluded_depth := d, in_excluded := if d = 0 then false else s1.in_excluded }
    else s1
  if tag ∈ CONTENT_TAGS ∧ s2.current_block ≠ [] ∧ s2.in_excluded = false then
    let block_text := pyStrip (joinSpace s2.current_block)
    { s2 with
      content_blocks :=
        if 50 < block_text.length then s2.content_blocks ++ [block_text]
        else s2.content_blocks,
      current_block := [] }
  else s2

/-- `handle_data(data)`. -/
def handle_data (d : List Char) (s : St) : St :=
  if s.in_excluded then s
  else
    let t := pyStrip d
    if t = [] then s else { s with current_block := s.current_block ++ [t] }

end ContentAnalyzer

/-- One event delivered by the `html.parser` tokenizer. -/
inductive Ev where
  | start (tag : String) (attrs : List (String × List Char))
  | close (tag : String)
  | text (d : List Char)
deriving DecidableEq, Repr

/-- Dispatch one event to the analyzer. -/
def stepEv (s : ContentAnalyzer.St) : Ev → ContentAnalyzer.St
  | .start tag attrs => ContentAnalyzer.handle_starttag tag attrs s
  | .close tag => ContentAnalyzer.handle_endtag tag s
  | .text d => ContentAnalyzer.handle_data d s

/-- `analyzer.feed(html)`: run the event stream through the analyzer. -/
def runA (evs : List Ev) (s : ContentAnalyzer.St) : ContentAnalyzer.St :=
  evs.foldl stepEv s

/-- `EXTRACT_MAX_CHARS` with its default configuration value. -/
def EXTRACT_MAX_CHARS : Nat := 9000

/-- `_calculate_content_density(text)`. -/
def _calculate_content_density (text : List Char) : ℚ :=
  if text = [] then 0
  else
    let length : ℚ := text.length
    let length_score : ℚ := min (length / 5000) 1
    let word_count : ℚ := (pyWords text).length
    let word_density : ℚ := if length = 0 then 0 else min ((word_count / length) * 10) 1
    let sentence_endings : ℚ :=
      ((text.count '.') + (text.count '!') + (text.count '?') : Nat)
    let sentence_score : ℚ := min (sentence_endings / max (word_count / 15) 1) 1
    let alnum_chars : ℚ :=
      (text.filter (fun c => c.isAlphanum || c.isWhitespace)).length
    let alnum_ratio : ℚ := if 0 < length then alnum_chars / length else 0
    length_score * 0.3 + word_density * 0.25 + sentence_score * 0.25 + alnum_ratio * 0.2

/-- `_calculate_relevance_score(text, query)`. -/
def _calculate_relevance_score (text query : List Char) : ℚ :=
  if text = [] ∨ query = [] then 0
  else
    let text_lower := text.map Char.toLower
    let query_lower := query.map Char.toLower
    let query_terms := (wordTokens query_lower).eraseDups.filter (fun t => 2 < t.length)
    if query_terms = [] then 0
    else
      let text_words := wordTokens text_lower
      let term_matches : ℚ := (query_terms.map (fun t => (countOcc t text_words : ℚ))).sum
      let tf_score : ℚ := min (term_matches / (query_terms.length * 5)) 1
      let phrase_score : ℚ := if isSubL query_lower text_lower then 1 else 0
      let first_match_pos : Nat :=
        query_terms.foldl
          (fun acc t =>
            match findSub t text_lower with
            | some pos => if pos < acc then pos else acc
            | none => acc)
          text.length
      let position_score : ℚ :=
        if 0 < text.length then 1 - ((first_match_pos : ℚ) / text.length) else 0
      tf_score * 0.5 + phrase_score * 0.3 + position_score * 0.2

/-- `combined_score = density * 0.4 + relevance * 0.6`. -/
def combinedScore (query block : List Char) : ℚ :=
  _calculate_content_density block * 0.4 + _calculate_relevance_score block query * 0.6

/-- Stable descending insertion by score: the element is placed before the
first entry whose score is `≤` its own, so equal scores keep document order
(`list.sort(reverse=True, key=lambda x: x[0])`). -/
def insDesc (x : ℚ × List Char) : List (ℚ × List Char) → List (ℚ × List Char)
  | [] => [x]
  | y :: ys => if y.1 ≤ x.1 then x :: y :: ys else y :: insDesc x ys

def sortDesc : List (ℚ × List Char) → List (ℚ × List Char)
  | [] => []
  | x :: xs => insDesc x (sortDesc xs)

/-- The strategy-1 accumulation loop over sorted `(score, block)` pairs
(lines 258-269): stop below score 0.1; on overflow truncate only when more
than 200 characters of budget remain; otherwise take the block whole. -/
def accumulate1 (total : Nat) : List (ℚ × List Char) → List (List Char)
  | [] => []
  | (score, block) :: rest =>
    if score < 0.1 then []
    else if EXTRACT_MAX_CHARS < total + block.length then
      if 200 < EXTRACT_MAX_CHARS - total then [block.take (EXTRACT_MAX_CHARS - total)]
      else []
    else block :: accumulate1 (total + block.length) rest

/-- Strategy 1 of `_extract_enhanced` (lines 240-274): score the blocks of the analyzer, sort descending, accumulate under the budget, succeed only when the
joined result is longer than 100 characters. -/
def strat1 (blocks : List (List Char)) (query : List Char) : Option (List Char) :=
  if blocks = [] then none
  else
    let scored := blocks.map (fun b => (combinedScore query b, b))
    let sorted := sortDesc scored
    let extracted := accumulate1 0 sorted
    if extracted = [] then none
    else
      let result := joinDD extracted
      if 100 < result.length then some result else none

/-- The strategy-2 accumulation loop (lines 307-318): cutoff 0.05, and a
truncated paragraph gets an explicit `…` appended. -/
def accumulate2 (total : Nat) : List (ℚ × List Char) → List (List Char)
  | [] => []
  | (score, para) :: rest =>
    if score < 0.05 then []
    else if EXTRACT_MAX_CHARS < total + para.length then
      if 200 < EXTRACT_MAX_CHARS - total then
        [para.take (EXTRACT_MAX_CHARS - total) ++ ['…']]
      else []
    else para :: accumulate2 (total + para.length) rest

/-- Strategy 2 of `_extract_enhanced` (lines 279-325), applied to the
output of the trafilatura oracle: paragraph split, 50-character filter, scoring,
accumulation, and the raw-output last resort. -/
def strat2 (trafOut : Option (List Char)) (query : List Char) : Option (List Char) :=
  match trafOut with
  | none => none
  | some text =>
    let paragraphs := splitDD text
    let kept := paragraphs.filter (fun p => ¬ (pyStrip p).length < 50)
    let scored := kept.map (fun p => (combinedScore query p, p))
    if scored ≠ [] ∧ accumulate2 0 (sortDesc scored) ≠ [] then
      some (joinDD (accumulate2 0 (sortDesc scored)))
    else if 100 < (pyStrip text).length then some (text.take EXTRACT_MAX_CHARS)
    else none

/-- `_extract_enhanced(html, url, query)`; `lex` is the `html.parser`
tokenizer and `traf` the trafilatura extractor, both external. -/
def _extract_enhanced (lex : List Char → List Ev) (traf : List Char → Option (List Char))
    (html : List Char) (url : String) (query : List Char) : Option (List Char) :=
  if html = [] then none
  else
    match strat1 (runA (lex html) ContentAnalyzer.initState).content_blocks query with
    | some r => some r
    | none => strat2 (traf html) query

/-- The post-extraction normalisation of `fetch_and_extract` (lines 443-445):
strip, then truncate to the budget with an `…` marker. -/
def postProcess (t : List Char) : List Char :=
  let t1 := pyStrip t
  if EXTRACT_MAX_CHARS < t1.length then t1.take EXTRACT_MAX_CHARS ++ ['…'] else t1

/-- `fetch_and_extract(client, url, query)`; `net` maps a URL to the decoded,
size-capped response body, or `none` for any transport/HTTP/timeout failure
(every exception is caught and becomes `(url, None)`). -/
def fetch_and_extract (net : String → Option (List Char)) (lex : List Char → List Ev)
    (traf : List Char → Option (List Char)) (query : List Char) (url : String) :
    String × Option (List Char) :=
  match net url with
  | none => (url, none)
  | some raw =>
    match _extract_enhanced lex traf raw url query with
    | none => (url, none)
    | some text => if text = [] then (url, none) else (url, some (postProcess text))

/-- `fetch_pages(urls, query)`: `asyncio.gather` keeps input order, then
`[(u, t) for (u, t) in out if t]` keeps the truthy extractions. -/
def fetch_pages (net : String → Option (List Char)) (lex : List Char → List Ev)
    (traf : List Char → Option (List Char)) (query : List Char) (urls : List String) :
    List (String × List Char) :=
  let out := urls.map (fetch_and_extract net lex traf query)
  out.filterMap (fun p =>
    match p.2 with
    | some t => if t = [] then none else some (p.1, t)
    | none => none)

/-- A prose-like block: `n` copies of a filler character followed by a full
stop.  Used to build concrete documents whose scores can be computed in
closed form. -/
def repBlock (c : Char) (n : Nat) : List Char := List.replicate n c ++ ['.']

/-- Spec formula: length score `min(character_count / 5000, 1.0)`. -/
def lengthScoreSpec (t : List Char) : ℚ := min ((t.length : ℚ) / 5000) 1

/-- Spec formula: word-density score `min((word_count / character_count) * 10, 1.0)`. -/
def wordDensityScoreSpec (t : List Char) : ℚ :=
  min ((((pyWords t).length : ℚ) / (t.length : ℚ)) * 10) 1

/-- Spec formula: terminal punctuation count divided by `max(word_count / 15, 1)`,
capped at 1. -/
def sentenceStructureScoreSpec (t : List Char) : ℚ :=
  min (((t.count '.' + t.count '!' + t.count '?' : Nat) : ℚ) /
    max (((pyWords t).length : ℚ) / 15) 1) 1

/-- Spec formula: fraction of characters that are alphanumeric or whitespace. -/
def alnumFractionSpec (t : List Char) : ℚ :=
  ((t.filter (fun c => c.isAlphanum || c.isWhitespace)).length : ℚ) / (t.length : ℚ)

/-- The density formula exactly as the claim states it, weights `0.3/0.25/0.25/0.2`. -/
def densitySpec (t : List Char) : ℚ :=
  0.3 * lengthScoreSpec t + 0.25 * wordDensityScoreSpec t +
    0.25 * sentenceStructureScoreSpec t + 0.2 * alnumFractionSpec t

/-- Spec: the qualifying terms are the distinct lowercase word tokens of the
query of length strictly greater than 2. -/
def qualifyingTermsSpec (query : List Char) : List (List Char) :=
  (wordTokens (query.map Char.toLower)).eraseDups.filter (fun t => 2 < t.length)

/-- Spec formula: summed occurrences of each qualifying term over the
word-frequency table, divided by `term_count * 5`, capped at 1. -/
def termFrequencyScoreSpec (text query : List Char) : ℚ :=
  min (((qualifyingTermsSpec query).map
      (fun term => (countOcc term (wordTokens (text.map Char.toLower)) : ℚ))).sum /
    ((qualifyingTermsSpec query).length * 5)) 1

/-- Spec formula: 1 iff the lowercase query occurs verbatim in the lowercase text. -/
def exactPhraseScoreSpec (text query : List Char) : ℚ :=
  if isSubL (query.map Char.toLower) (text.map Char.toLower) then 1 else 0

/-- Spec: the minimum starting offset over all qualifying-term matches, with the
text length as the no-match default. -/
def earliestMatchOffsetSpec (text query : List Char) : Nat :=
  ((qualifyingTermsSpec query).filterMap
    (fun term => findSub term (text.map Char.toLower))).foldr min text.length

/-- Spec formula: 1 minus the earliest match offset over the text length. -/
def positionScoreSpec (text query : List Char) : ℚ :=
  1 - ((earliestMatchOffsetSpec text query : ℚ) / (text.length : ℚ))

/-- The relevance formula exactly as the claim states it, weights `0.5/0.3/0.2`,
and 0 when no qualifying term exists. -/
def relevanceSpec (text query : List Char) : ℚ :=
  if qualifyingTermsSpec query = [] then 0
  else
    0.5 * termFrequencyScoreSpec text query + 0.3 * exactPhraseScoreSpec text query +
      0.2 * positionScoreSpec text query

open ContentAnalyzer

/-- The invariant of the ExclusionState: `in_excluded` holds exactly when the
depth counter is positive. -/
def ExclInv (s : St) : Prop := s.in_excluded = true ↔ 0 < s.excluded_depth

/-- Did this open tag enter an exclusion zone (by name or by class/id pattern)? -/
def exclEntry (tag : String) (attrs : List (String × List Char)) : Prop :=
  tag ∈ EXCLUDED_TAGS ∨ attrsExcluded attrs = true

instance (tag : String) (attrs : List (String × List Char)) :
    Decidable (exclEntry tag attrs) := by
  unfold exclEntry; infer_instance

/-- A well-formed markup subtree: an element node carries its own balanced
close tag, a text node is a data run. -/
inductive Node where
  | elem (tag : String) (attrs : List (String × List Char)) (children : List Node)
  | txt (d : List Char)
deriving Repr

/-- The event stream produced by tokenizing a well-formed forest. -/
def forestEvents : List Node → List Ev
  | [] => []
  | Node.txt d :: ns => Ev.text d :: forestEvents ns
  | Node.elem t a c :: ns =>
    Ev.start t a :: (forestEvents c ++ (Ev.close t :: forestEvents ns))

/-- The secret text of the C2 counterexample (61 characters). -/
def c2secret : List Char :=
  "This hidden navigation text is sixty characters long okay yes".data

/-- The malformed C2 document: inside the excluded `nav` subtree an unmatched
close tag appears, followed by a content-bearing `p` element carrying the
secret text — a content tag nested (at depth 1) inside an excluded-tag
subtree. -/
def c2doc : List Ev :=
  [Ev.start "div" []] ++ [Ev.start "nav" []] ++
    [Ev.close "zzz", Ev.start "p" [], Ev.text c2secret, Ev.close "p"] ++
    [Ev.close "nav"] ++ [Ev.close "div"]

/-- The parser state reached after an open `div` carrying pending accumulated
text: no `p` tag is on the stack. -/
def c3state : ContentAnalyzer.St :=
  runA [Ev.start "div" [],
    Ev.text ("Some pending accumulated text that is definitely over fifty chars".data)]
    ContentAnalyzer.initState

/-- The 4500-character block of the C1 counterexample. -/
def c1block : List Char := repBlock 'a' 4499

/-- The C1 counterexample document: two content `div`s each carrying one
4500-character block, so both fit the 9000-character budget exactly. -/
def c1doc : List Ev :=
  [Ev.start "div" [], Ev.text c1block, Ev.close "div",
   Ev.start "div" [], Ev.text c1block, Ev.close "div"]

/-- Tokenizer oracle of the C1 counterexample. -/
def c1lex : List Char → List Ev := fun _ => c1doc

/-- Trafilatura oracle of the C1 counterexample (never consulted). -/
def c1traf : List Char → Option (List Char) := fun _ => none

/-- The string returned by `_extract_enhanced` on the C1 counterexample. -/
def c1result : List Char := joinDD [c1block, c1block]

/-- Tokenizer oracle of the C1 witness. -/
def c1wlex : List Char → List Ev :=
  fun _ => [Ev.start "div" [], Ev.text (repBlock 'a' 149), Ev.close "div"]

/-- The strategy-1 accumulation loop as claim C8 words it: an overflowing
block is truncated when AT LEAST 200 characters of budget remain. -/
def accumulateClaim (total : Nat) : List (ℚ × List Char) → List (List Char)
  | [] => []
  | (score, block) :: rest =>
    if score < 0.1 then []
    else if EXTRACT_MAX_CHARS < total + block.length then
      if 200 ≤ EXTRACT_MAX_CHARS - total then [block.take (EXTRACT_MAX_CHARS - total)]
      else []
    else block :: accumulateClaim (total + block.length) rest

/-- The structured strategy as claim C8 states it (with the at-least-200
truncation rule). -/
def strat1Claim (blocks : List (List Char)) (query : List Char) : Option (List Char) :=
  if blocks = [] then none
  else
    let parts := accumulateClaim 0 (sortDesc (blocks.map (fun b => (combinedScore query b, b))))
    if parts = [] then none
    else if 100 < (joinDD parts).length then some (joinDD parts) else none

/-- The greedy accumulation as the amended claim words it, written as a
forward accumulator: blocks are appended while the score stays at or above
0.1 and the block fits the budget; an overflowing block is truncated to fit
exactly when strictly more than 200 characters of budget remain. -/
def accumAmendedAux (acc : List (List Char)) (total : Nat) :
    List (ℚ × List Char) → List (List Char)
  | [] => acc
  | (score, block) :: rest =>
    if score < 0.1 then acc
    else if total + block.length ≤ EXTRACT_MAX_CHARS then
      accumAmendedAux (acc ++ [block]) (total + block.length) rest
    else if 200 < EXTRACT_MAX_CHARS - total then
      acc ++ [block.take (EXTRACT_MAX_CHARS - total)]
    else acc

/-- The structured strategy as the amended claim words it. -/
def strat1Amended (blocks : List (List Char)) (query : List Char) : Option (List Char) :=
  if blocks = [] then none
  else
    let parts := accumAmendedAux [] 0 (sortDesc (blocks.map (fun b => (combinedScore query b, b))))
    if parts = [] then none
    else if 100 < (joinDD parts).length then some (joinDD parts) else none

/-- First block of the C8 counterexample: 8800 characters. -/
def c8b1 : List Char := repBlock 'a' 8799

/-- Second block of the C8 counterexample: 300 characters, overflowing the
budget with exactly 200 characters remaining. -/
def c8b2 : List Char := repBlock 'b' 299

/-- Network oracle of the C10 witness. -/
def c10net : String → Option (List Char) := fun _ => some ("x".data)

/-- Network oracle of the C9 witness: every fetch fails. -/
def c9net : String → Option (List Char) := fun _ => none

/-- A second, pointwise-equal network oracle for the independence conjunct. -/
def c9net2 : String → Option (List Char) := fun _ => none

/-- Tokenizer oracle of the C9 witness. -/
def c9lex : List Char → List Ev := fun _ => []

/-! ## Lemmas and claim theorems -/

lemma runA_append (a b : List Ev) (s : ContentAnalyzer.St) :
    runA (a ++ b) s = runA b (runA a s) := by
  simp [runA, List.foldl_append]

lemma dropWhile_head_not (p : Char → Bool) (l : List Char) :
    ∀ a ∈ (l.dropWhile p).head?, p a = false := by
  induction l with
  | nil => simp
  | cons c cs ih =>
    by_cases h : p c
    · simpa [List.dropWhile_cons, h] using ih
    · simp [List.dropWhile_cons, h]

lemma dropWhile_eq_self_of_head (p : Char → Bool) (l : List Char)
    (h : ∀ a ∈ l.head?, p a = false) : l.dropWhile p = l := by
  cases l with
  | nil => rfl
  | cons c cs => simp [List.dropWhile_cons, h c (by simp)]

/-- When the first and last characters are not whitespace, `pyStrip` is the
identity. -/
lemma pyStrip_eq_self (l : List Char)
    (h1 : ∀ a ∈ l.head?, a.isWhitespace = false)
    (h2 : ∀ a ∈ l.reverse.head?, a.isWhitespace = false) :
    pyStrip l = l := by
  unfold pyStrip
  rw [dropWhile_eq_self_of_head _ _ h1, dropWhile_eq_self_of_head _ _ h2,
    List.reverse_reverse]

lemma pyStrip_head_not_ws (l : List Char) :
    ∀ a ∈ (pyStrip l).head?, a.isWhitespace = false := by
  intro a ha
  unfold pyStrip at ha
  set m := l.dropWhile Char.isWhitespace with hm
  obtain ⟨t, ht⟩ : (m.reverse.dropWhile Char.isWhitespace).IsSuffix m.reverse :=
    List.dropWhile_suffix _
  set r := m.reverse.dropWhile Char.isWhitespace with hr
  cases hrr : r with
  | nil => rw [hrr] at ha; simp at ha
  | cons b bs =>
    have hmrev : m = r.reverse ++ t.reverse := by
      have := congrArg List.reverse ht
      simpa using this.symm
    have hhead : (r.reverse ++ t.reverse).head? = r.reverse.head? := by
      apply List.head?_append_of_ne_nil
      simp [hrr]
    have : a ∈ m.head? := by
      rw [hmrev, hhead]; exact ha
    rw [hm] at this
    exact dropWhile_head_not _ l a this

lemma pyStrip_reverse_head_not_ws (l : List Char) :
    ∀ a ∈ (pyStrip l).reverse.head?, a.isWhitespace = false := by
  intro a ha
  unfold pyStrip at ha
  rw [List.reverse_reverse] at ha
  exact dropWhile_head_not _ _ a ha

lemma pyStrip_idem (l : List Char) : pyStrip (pyStrip l) = pyStrip l :=
  pyStrip_eq_self _ (pyStrip_head_not_ws l) (pyStrip_reverse_head_not_ws l)

lemma runsByAux_all_sat (p : Char → Bool) (l : List Char) (h : ∀ x ∈ l, p x = true) :
    ∀ cur, runsByAux p cur l =
      if cur.reverse ++ l = [] then [] else [cur.reverse ++ l] := by
  induction l with
  | nil =>
    intro cur
    simp only [runsByAux, List.append_nil]
    by_cases hc : cur = []
    · simp [hc]
    · simp [hc]
  | cons c cs ih =>
    intro cur
    have hc : p c = true := h c (by simp)
    have hcs : ∀ x ∈ cs, p x = true := fun x hx => h x (by simp [hx])
    simp only [runsByAux, hc, if_true]
    rw [ih hcs (c :: cur)]
    have : (c :: cur).reverse ++ cs = cur.reverse ++ c :: cs := by simp
    rw [this]

lemma runsBy_all_sat (p : Char → Bool) (l : List Char) (hne : l ≠ [])
    (h : ∀ x ∈ l, p x = true) : runsBy p l = [l] := by
  unfold runsBy
  rw [runsByAux_all_sat p l h []]
  simp [hne]

lemma repBlock_length (c : Char) (n : Nat) : (repBlock c n).length = n + 1 := by
  simp [repBlock]

lemma repBlock_ne_nil (c : Char) (n : Nat) : repBlock c n ≠ [] := by
  simp [repBlock]

lemma repBlock_head (c : Char) (n : Nat) (hn : 0 < n) :
    (repBlock c n).head? = some c := by
  obtain ⟨m, rfl⟩ := Nat.exists_eq_add_of_lt hn
  simp [repBlock, List.replicate_succ]

lemma repBlock_reverse (c : Char) (n : Nat) :
    (repBlock c n).reverse = '.' :: List.replicate n c := by
  simp [repBlock, List.reverse_append, List.reverse_replicate]

lemma pyStrip_repBlock (c : Char) (n : Nat) (hn : 0 < n)
    (hc : c.isWhitespace = false) : pyStrip (repBlock c n) = repBlock c n := by
  apply pyStrip_eq_self
  · intro a ha
    rw [repBlock_head c n hn] at ha
    simp at ha
    rw [← ha]; exact hc
  · intro a ha
    rw [repBlock_reverse] at ha
    simp at ha
    rw [← ha]; decide

lemma pyWords_repBlock (c : Char) (n : Nat) (hc : c.isWhitespace = false) :
    pyWords (repBlock c n) = [repBlock c n] := by
  apply runsBy_all_sat _ _ (repBlock_ne_nil c n)
  intro x hx
  rcases List.mem_append.mp hx with h | h
  · rw [List.eq_of_mem_replicate h]
    simp [hc]
  · simp at h
    rw [h]; decide

lemma count_repBlock_dot (c : Char) (n : Nat) (hc : c ≠ '.') :
    (repBlock c n).count '.' = 1 := by
  simp [repBlock, List.count_append, List.count_replicate, hc, Ne.symm hc]

lemma count_repBlock_of_ne (c : Char) (n : Nat) (x : Char) (hx : x ≠ c)
    (hd : x ≠ '.') : (repBlock c n).count x = 0 := by
  simp [repBlock, List.count_append, List.count_replicate, List.count_cons,
    List.count_nil, hx, Ne.symm hx, hd, Ne.symm hd]

lemma filter_repBlock_alnum (c : Char) (n : Nat) (hc : (c.isAlphanum || c.isWhitespace) = true) :
    (repBlock c n).filter (fun x => x.isAlphanum || x.isWhitespace) =
      List.replicate n c := by
  simp [repBlock, List.filter_append, List.filter_replicate, hc]

/-- Closed form of the density score of a `repBlock`. -/
lemma density_repBlock (c : Char) (n : Nat) (hn : 0 < n)
    (hws : c.isWhitespace = false) (hal : c.isAlphanum = true)
    (hd : c ≠ '.') (he : c ≠ '!') (hq : c ≠ '?') :
    _calculate_content_density (repBlock c n) =
      min ((n + 1 : ℚ) / 5000) 1 * 0.3 + min ((1 / (n + 1 : ℚ)) * 10) 1 * 0.25 +
        0.25 + ((n : ℚ) / (n + 1 : ℚ)) * 0.2 := by
  rw [_calculate_content_density]
  rw [if_neg (repBlock_ne_nil c n)]
  simp only [pyWords_repBlock c n hws, count_repBlock_dot c n hd,
    count_repBlock_of_ne c n '!' (Ne.symm he) (by decide),
    count_repBlock_of_ne c n '?' (Ne.symm hq) (by decide),
    filter_repBlock_alnum c n (by simp [hal]), repBlock_length]
  simp only [List.length_singleton, List.length_replicate]
  have hpos : (0 : ℚ) < ((n + 1 : Nat) : ℚ) := by positivity
  have hne : ((n + 1 : Nat) : ℚ) ≠ 0 := ne_of_gt hpos
  rw [if_neg hne, if_pos hpos]
  have hmax : max ((1 : ℚ) / 15) 1 = 1 := by norm_num
  push_cast
  norm_num [hmax]

lemma relevance_empty_query (t : List Char) : _calculate_relevance_score t [] = 0 := by
  simp [_calculate_relevance_score]

lemma combinedScore_empty_query (b : List Char) :
    combinedScore [] b = _calculate_content_density b * 0.4 := by
  simp [combinedScore, relevance_empty_query]

lemma weighted4_bounds (a b c d : ℚ) (ha : 0 ≤ a) (ha1 : a ≤ 1) (hb : 0 ≤ b)
    (hb1 : b ≤ 1) (hc : 0 ≤ c) (hc1 : c ≤ 1) (hd : 0 ≤ d) (hd1 : d ≤ 1) :
    0 ≤ a * 0.3 + b * 0.25 + c * 0.25 + d * 0.2 ∧
      a * 0.3 + b * 0.25 + c * 0.25 + d * 0.2 ≤ 1 := by
  constructor <;> nlinarith

lemma weighted3_bounds (a b c : ℚ) (ha : 0 ≤ a) (ha1 : a ≤ 1) (hb : 0 ≤ b)
    (hb1 : b ≤ 1) (hc : 0 ≤ c) (hc1 : c ≤ 1) :
    0 ≤ a * 0.5 + b * 0.3 + c * 0.2 ∧ a * 0.5 + b * 0.3 + c * 0.2 ≤ 1 := by
  constructor <;> nlinarith

lemma density_bounds (t : List Char) :
    0 ≤ _calculate_content_density t ∧ _calculate_content_density t ≤ 1 := by
  simp only [_calculate_content_density]
  split_ifs with h1 h2 h3 h4
  · norm_num
  · rw [h2] at h3
    norm_num at h3
  · refine weighted4_bounds _ _ _ _ (le_min (by positivity) zero_le_one)
      (min_le_right _ _) le_rfl (by norm_num)
      (le_min (by positivity) zero_le_one) (min_le_right _ _) le_rfl (by norm_num)
  · refine weighted4_bounds _ _ _ _ (le_min (by positivity) zero_le_one)
      (min_le_right _ _) (le_min (by positivity) zero_le_one) (min_le_right _ _)
      (le_min (by positivity) zero_le_one) (min_le_right _ _) (by positivity) ?_
    rw [div_le_one h4]
    exact_mod_cast List.length_filter_le _ t
  · refine weighted4_bounds _ _ _ _ (le_min (by positivity) zero_le_one)
      (min_le_right _ _) (le_min (by positivity) zero_le_one) (min_le_right _ _)
      (le_min (by positivity) zero_le_one) (min_le_right _ _) le_rfl (by norm_num)

lemma foldl_first_match_le (hay : List Char) (terms : List (List Char)) :
    ∀ init : Nat,
      terms.foldl (fun acc x =>
        match findSub x hay with
        | some pos => if pos < acc then pos else acc
        | none => acc) init ≤ init := by
  induction terms with
  | nil => intro init; simp
  | cons a l ih =>
    intro init
    simp only [List.foldl_cons]
    refine le_trans (ih _) ?_
    cases findSub a hay with
    | none => simp
    | some pos =>
      simp only
      split <;> omega

lemma position_bounds (len : Nat) (hay : List Char) (terms : List (List Char))
    (h : 0 < len) :
    0 ≤ 1 - (↑(terms.foldl (fun acc x =>
        match findSub x hay with
        | some pos => if pos < acc then pos else acc
        | none => acc) len) : ℚ) / ↑len ∧
      1 - (↑(terms.foldl (fun acc x =>
        match findSub x hay with
        | some pos => if pos < acc then pos else acc
        | none => acc) len) : ℚ) / ↑len ≤ 1 := by
  have hf := foldl_first_match_le hay terms len
  have hpos : (0 : ℚ) < ↑len := by exact_mod_cast h
  have hx1 : (↑(terms.foldl (fun acc x =>
      match findSub x hay with
      | some pos => if pos < acc then pos else acc
      | none => acc) len) : ℚ) / ↑len ≤ 1 := by
    rw [div_le_one hpos]
    exact_mod_cast hf
  have hx0 : 0 ≤ (↑(terms.foldl (fun acc x =>
      match findSub x hay with
      | some pos => if pos < acc then pos else acc
      | none => acc) len) : ℚ) / ↑len := by positivity
  constructor <;> linarith

lemma tf_sum_nonneg (terms ws : List (List Char)) :
    0 ≤ ((terms.map (fun x => (countOcc x ws : ℚ))).sum) := by
  apply List.sum_nonneg
  intro x hx
  simp only [List.mem_map] at hx
  obtain ⟨a, _, rfl⟩ := hx
  positivity

lemma relevance_bounds (t q : List Char) :
    0 ≤ _calculate_relevance_score t q ∧ _calculate_relevance_score t q ≤ 1 := by
  simp only [_calculate_relevance_score]
  split_ifs with h1 h2 h3 h4 h5
  · norm_num
  · norm_num
  · exact weighted3_bounds _ _ _
      (le_min (div_nonneg (tf_sum_nonneg _ _) (by positivity)) zero_le_one)
      (min_le_right _ _) (by norm_num) (by norm_num)
      (position_bounds t.length (t.map Char.toLower) _ h4).1
      (position_bounds t.length (t.map Char.toLower) _ h4).2
  · exact weighted3_bounds _ _ _
      (le_min (div_nonneg (tf_sum_nonneg _ _) (by positivity)) zero_le_one)
      (min_le_right _ _) (by norm_num) (by norm_num) le_rfl (by norm_num)
  · exact weighted3_bounds _ _ _
      (le_min (div_nonneg (tf_sum_nonneg _ _) (by positivity)) zero_le_one)
      (min_le_right _ _) le_rfl (by norm_num)
      (position_bounds t.length (t.map Char.toLower) _ h5).1
      (position_bounds t.length (t.map Char.toLower) _ h5).2
  · exact weighted3_bounds _ _ _
      (le_min (div_nonneg (tf_sum_nonneg _ _) (by positivity)) zero_le_one)
      (min_le_right _ _) le_rfl (by norm_num) le_rfl (by norm_num)

lemma foldl_min_eq_foldr_min (hay : List Char) (terms : List (List Char)) :
    ∀ init : Nat,
      terms.foldl (fun acc x =>
        match findSub x hay with
        | some pos => if pos < acc then pos else acc
        | none => acc) init
      = (terms.filterMap (fun x => findSub x hay)).foldr min init := by
  induction terms with
  | nil => intro init; rfl
  | cons a l ih =>
    intro init
    simp only [List.foldl_cons, List.filterMap_cons]
    cases h : findSub a hay with
    | none =>
      simp only [h]
      exact ih init
    | some p =>
      simp only [h, List.foldr_cons]
      rw [show (if p < init then p else init) = min p init by split <;> omega, ih (min p init)]
      generalize l.filterMap (fun x => findSub x hay) = fl
      induction fl with
      | nil => simp
      | cons b bl ihb =>
        simp only [List.foldr_cons, ihb]
        exact min_left_comm b p _

/-- C5: for every text and query, `_calculate_content_density` and
`_calculate_relevance_score` are total functions into the closed interval
`[0, 1]`; the density of the empty string is 0 and the relevance of an empty
query is 0.  (Totality is inherent: both are total Lean functions.) -/
theorem C5_scorers_total_and_bounded : ∀ (t q : List Char),
    (0 ≤ _calculate_content_density t ∧ _calculate_content_density t ≤ 1) ∧
    (0 ≤ _calculate_relevance_score t q ∧ _calculate_relevance_score t q ≤ 1) ∧
    _calculate_content_density [] = 0 ∧
    _calculate_relevance_score t [] = 0 := by
  intro t q
  exact ⟨density_bounds t, relevance_bounds t q, by simp [_calculate_content_density],
    relevance_empty_query t⟩

/-- C7: for every text string, `_calculate_content_density` equals the weighted
sum `0.3 * length score + 0.25 * word density + 0.25 * sentence structure +
0.2 * alphanumeric fraction` with the sub-scores of the claim. -/
theorem C7_density_formula : ∀ t : List Char,
    _calculate_content_density t = densitySpec t := by
  intro t
  simp only [_calculate_content_density, densitySpec, lengthScoreSpec,
    wordDensityScoreSpec, sentenceStructureScoreSpec, alnumFractionSpec]
  split_ifs with h1 h2 h3 h4
  · subst h1
    show (0 : ℚ) = _
    norm_num [pyWords, runsBy, runsByAux]
  · exfalso
    rw [show ((t.length : ℚ) = 0) ↔ t.length = 0 from by exact_mod_cast Iff.rfl] at h2
    exact h1 (List.length_eq_zero.mp h2)
  · exfalso
    rw [show ((t.length : ℚ) = 0) ↔ t.length = 0 from by exact_mod_cast Iff.rfl] at h2
    exact h1 (List.length_eq_zero.mp h2)
  · ring
  · exfalso
    apply h4
    have hne : t.length ≠ 0 := fun h => h1 (List.length_eq_zero.mp h)
    have hpos : 0 < t.length := Nat.pos_of_ne_zero hne
    exact_mod_cast hpos

/-- C6: for every non-empty text and non-empty query,
`_calculate_relevance_score` equals `0.5 * term-frequency + 0.3 * exact-phrase +
0.2 * position` over the qualifying terms (the distinct lowercase word tokens
of the query longer than 2 characters), and it returns 0 when no qualifying
term exists. -/
theorem C6_relevance_formula : ∀ t q : List Char, t ≠ [] → q ≠ [] →
    _calculate_relevance_score t q = relevanceSpec t q := by
  intro t q ht hq
  simp only [_calculate_relevance_score, relevanceSpec, termFrequencyScoreSpec,
    exactPhraseScoreSpec, positionScoreSpec, earliestMatchOffsetSpec,
    qualifyingTermsSpec]
  rw [if_neg (show ¬(t = [] ∨ q = []) by simp [ht, hq])]
  rw [if_pos (List.length_pos.mpr ht)]
  rw [foldl_min_eq_foldr_min (t.map Char.toLower) _ t.length]
  split_ifs with h h2
  · rfl
  · ring
  · ring

/-- Witness for C6 at a concrete text and query. -/
theorem C6_relevance_formula_witness :
    _calculate_relevance_score ("the cat sat".data) ("cat".data) =
      relevanceSpec ("the cat sat".data) ("cat".data) :=
  C6_relevance_formula ("the cat sat".data) ("cat".data) (by decide) (by decide)

lemma exclInv_start (s : St) (tag : String) (attrs : List (String × List Char))
    (h : ExclInv s) : ExclInv (handle_starttag tag attrs s) := by
  cases hb : s.in_excluded with
  | true =>
    simp [handle_starttag, ExclInv, hb]
  | false =>
    have hd : s.excluded_depth = 0 := by
      by_contra hx
      have := h.mpr (Nat.pos_of_ne_zero hx)
      rw [hb] at this; exact Bool.noConfusion this
    by_cases h2 : tag ∈ EXCLUDED_TAGS
    · simp [handle_starttag, ExclInv, hb, h2]
    · by_cases h3 : attrsExcluded attrs = true
      · simp [handle_starttag, ExclInv, hb, h2, h3]
      · simp [handle_starttag, ExclInv, hb, h2, h3, hd]

lemma exclInv_end (s : St) (tag : String) (h : ExclInv s) :
    ExclInv (handle_endtag tag s) := by
  cases hb : s.in_excluded with
  | true =>
    have hd : 0 < s.excluded_depth := h.mp hb
    unfold handle_endtag ExclInv
    simp only [hb]
    split_ifs <;> simp_all <;> omega
  | false =>
    have hd : s.excluded_depth = 0 := by
      by_contra hx
      have := h.mpr (Nat.pos_of_ne_zero hx)
      rw [hb] at this; exact Bool.noConfusion this
    unfold handle_endtag ExclInv
    simp only [hb]
    split_ifs <;> simp_all

lemma exclInv_data (s : St) (d : List Char) (h : ExclInv s) :
    ExclInv (handle_data d s) := by
  unfold ExclInv at h ⊢
  unfold handle_data
  split_ifs <;> simp_all
  split <;> simp_all

lemma exclInv_step (s : St) (e : Ev) (h : ExclInv s) : ExclInv (stepEv s e) := by
  cases e with
  | start tag attrs => exact exclInv_start s tag attrs h
  | close tag => exact exclInv_end s tag h
  | text d => exact exclInv_data s d h

lemma exclInv_runA (evs : List Ev) (s : St) (h : ExclInv s) : ExclInv (runA evs s) := by
  induction evs generalizing s with
  | nil => exact h
  | cons e rest ih =>
    rw [runA, List.foldl_cons]
    exact ih (stepEv s e) (exclInv_step s e h)

lemma exclInv_initState : ExclInv initState := by
  unfold ExclInv initState
  simp

/-- C4: in every analyzer state reachable from the initial state by any event
sequence, `in_excluded` is true iff `excluded_depth > 0`; entering an excluded
region (by tag name or class/id pattern) sets the depth to 1 exactly when the
state is not already excluded, any open tag while excluded increments the
depth, and any close tag while excluded decrements it, clearing `in_excluded`
exactly when the decremented depth is zero. -/
theorem C4_exclusion_state_invariant : ∀ evs : List Ev,
    ((runA evs initState).in_excluded = true ↔ 0 < (runA evs initState).excluded_depth) ∧
    (∀ tag attrs, (runA evs initState).in_excluded = false → exclEntry tag attrs →
      (handle_starttag tag attrs (runA evs initState)).in_excluded = true ∧
      (handle_starttag tag attrs (runA evs initState)).excluded_depth = 1) ∧
    (∀ tag attrs, (runA evs initState).in_excluded = false → ¬ exclEntry tag attrs →
      (handle_starttag tag attrs (runA evs initState)).in_excluded = false ∧
      (handle_starttag tag attrs (runA evs initState)).excluded_depth =
        (runA evs initState).excluded_depth) ∧
    (∀ tag attrs, (runA evs initState).in_excluded = true →
      (handle_starttag tag attrs (runA evs initState)).in_excluded = true ∧
      (handle_starttag tag attrs (runA evs initState)).excluded_depth =
        (runA evs initState).excluded_depth + 1) ∧
    (∀ tag, (runA evs initState).in_excluded = true →
      (handle_endtag tag (runA evs initState)).excluded_depth =
        (runA evs initState).excluded_depth - 1 ∧
      ((handle_endtag tag (runA evs initState)).in_excluded = true ↔
        0 < (runA evs initState).excluded_depth - 1)) := by
  intro evs
  have hInv : ExclInv (runA evs initState) :=
    exclInv_runA evs initState exclInv_initState
  refine ⟨hInv, ?_, ?_, ?_, ?_⟩
  · intro tag attrs hb hentry
    rcases hentry with h2 | h3
    · constructor <;> simp [handle_starttag, hb, h2]
    · by_cases h2 : tag ∈ EXCLUDED_TAGS
      · constructor <;> simp [handle_starttag, hb, h2]
      · constructor <;> simp [handle_starttag, hb, h2, h3]
  · intro tag attrs hb hentry
    rw [exclEntry, not_or] at hentry
    obtain ⟨h2, h3⟩ := hentry
    constructor <;> simp [handle_starttag, hb, h2, h3]
  · intro tag attrs hb
    constructor <;> simp [handle_starttag, hb]
  · intro tag hb
    have hd : 0 < (runA evs initState).excluded_depth := hInv.mp hb
    unfold handle_endtag
    simp only [hb]
    split_ifs <;> simp_all <;> omega

/-- Witness for C4: entering an exclusion via a `nav` open tag from the initial
state, and a close tag processed while excluded. -/
theorem C4_exclusion_state_invariant_witness :
    ((handle_starttag "nav" [] (runA [] initState)).in_excluded = true ∧
      (handle_starttag "nav" [] (runA [] initState)).excluded_depth = 1) ∧
    ((handle_endtag "p" (runA [Ev.start "nav" []] initState)).excluded_depth =
        (runA [Ev.start "nav" []] initState).excluded_depth - 1 ∧
      ((handle_endtag "p" (runA [Ev.start "nav" []] initState)).in_excluded = true ↔
        0 < (runA [Ev.start "nav" []] initState).excluded_depth - 1)) :=
  ⟨(C4_exclusion_state_invariant []).2.1 "nav" [] (by decide) (Or.inl (by decide)),
   (C4_exclusion_state_invariant [Ev.start "nav" []]).2.2.2.2 "p" (by decide)⟩

lemma runA_nil (s : St) : runA [] s = s := rfl

lemma runA_cons (e : Ev) (evs : List Ev) (s : St) :
    runA (e :: evs) s = runA evs (stepEv s e) := rfl

lemma popNearest_append_self (t : String) (l : List String) :
    popNearest t (l ++ [t]) = l := by
  unfold popNearest
  rw [List.reverse_append]
  simp [removeFirstOcc]

lemma excluded_not_content (t : String) (ht : t ∈ EXCLUDED_TAGS) :
    t ∉ CONTENT_TAGS := by
  fin_cases ht <;> decide

/-- Processing the events of any well-formed forest from an excluded state is
the identity on the analyzer state. -/
lemma runA_forest_excluded (ns : List Node) :
    ∀ s : St, s.in_excluded = true → 0 < s.excluded_depth →
      runA (forestEvents ns) s = s := by
  induction ns using forestEvents.induct with
  | case1 =>
    intro s hb hd
    rw [forestEvents]
    exact runA_nil s
  | case2 d ns ih =>
    intro s hb hd
    rw [forestEvents, runA_cons]
    have h1 : stepEv s (Ev.text d) = s := by simp [stepEv, handle_data, hb]
    rw [h1]
    exact ih s hb hd
  | case3 t a c ns ihc ihn =>
    intro s hb hd
    obtain ⟨bl, cur, stk, exc, dep⟩ := s
    simp only at hb hd
    subst hb
    rw [forestEvents, runA_cons]
    have h1 : stepEv ⟨bl, cur, stk, true, dep⟩ (Ev.start t a) =
        ⟨bl, cur, stk ++ [t], true, dep + 1⟩ := by
      simp [stepEv, handle_starttag]
    rw [h1, runA_append]
    rw [ihc ⟨bl, cur, stk ++ [t], true, dep + 1⟩ rfl (Nat.succ_pos dep)]
    rw [runA_cons]
    have h2 : stepEv ⟨bl, cur, stk ++ [t], true, dep + 1⟩ (Ev.close t) =
        ⟨bl, cur, stk, true, dep⟩ := by
      simp [stepEv, handle_endtag, popNearest_append_self, Nat.pos_iff_ne_zero.mp hd]
    rw [h2]
    exact ihn ⟨bl, cur, stk, true, dep⟩ rfl hd

/-- Processing a well-formed subtree rooted at an excluded tag is the identity
on the analyzer state, from any state satisfying the exclusion invariant. -/
lemma runA_excluded_elem (t : String) (ht : t ∈ EXCLUDED_TAGS)
    (a : List (String × List Char)) (c : List Node) (s : St) (hInv : ExclInv s) :
    runA (forestEvents [Node.elem t a c]) s = s := by
  cases hb : s.in_excluded with
  | true => exact runA_forest_excluded _ s hb (hInv.mp hb)
  | false =>
    have hd : s.excluded_depth = 0 := by
      by_contra hx
      have := hInv.mpr (Nat.pos_of_ne_zero hx)
      rw [hb] at this
      exact Bool.noConfusion this
    obtain ⟨bl, cur, stk, exc, dep⟩ := s
    simp only at hb hd
    subst hb
    subst hd
    rw [forestEvents, runA_cons]
    have h1 : stepEv ⟨bl, cur, stk, false, 0⟩ (Ev.start t a) =
        ⟨bl, cur, stk ++ [t], true, 1⟩ := by
      simp [stepEv, handle_starttag, ht]
    rw [h1, runA_append]
    rw [runA_forest_excluded c ⟨bl, cur, stk ++ [t], true, 1⟩ rfl Nat.one_pos]
    rw [runA_cons]
    have h2 : stepEv ⟨bl, cur, stk ++ [t], true, 1⟩ (Ev.close t) =
        ⟨bl, cur, stk, false, 0⟩ := by
      simp [stepEv, handle_endtag, popNearest_append_self, excluded_not_content t ht]
    rw [h2, forestEvents, runA_nil]

/-- C2 (amended): whenever an excluded-tag element forms a well-formed
(balanced) subtree of the document, the whole analyzer state after the
document equals the state with that subtree removed, for any surrounding
events; in particular no text inside it reaches any emitted block.  The
original claim fails for malformed documents: see the counterexample. -/
theorem C2_excluded_subtree_invisible_amended :
    ∀ (pre post : List Ev) (t : String) (a : List (String × List Char))
      (c : List Node), t ∈ ContentAnalyzer.EXCLUDED_TAGS →
      runA (pre ++ forestEvents [Node.elem t a c] ++ post) initState =
        runA (pre ++ post) initState := by
  intro pre post t a c ht
  rw [runA_append, runA_append, runA_append]
  rw [runA_excluded_elem t ht a c _ (exclInv_runA pre _ exclInv_initState)]

/-- Witness for the amended C2 at a concrete document: a `nav` subtree with
text is invisible to the segmenter. -/
theorem C2_excluded_subtree_invisible_amended_witness :
    runA ([Ev.start "div" [], Ev.text ("Some visible article content that is long enough to matter".data)] ++
        forestEvents [Node.elem "nav" [] [Node.txt ("Home About Contact".data)]] ++
        [Ev.close "div"]) initState =
      runA ([Ev.start "div" [], Ev.text ("Some visible article content that is long enough to matter".data)] ++
        [Ev.close "div"]) initState :=
  C2_excluded_subtree_invisible_amended _ _ "nav" [] _ (by decide)

/-- Counterexample to C2 as stated: in the malformed document `c2doc` a
content-bearing `p` element, together with its text `c2secret`, is nested
strictly inside the `nav` (excluded-tag) subtree — between the `nav` open tag
and its matching close — so the hypothesis of the claim holds; yet the
unmatched close tag that precedes it exits the exclusion early and the
segmenter emits exactly that text as a content block. -/
theorem C2_counterexample :
    "nav" ∈ ContentAnalyzer.EXCLUDED_TAGS ∧
    "p" ∈ ContentAnalyzer.CONTENT_TAGS ∧
    c2doc = [Ev.start "div" []] ++ [Ev.start "nav" []] ++
      [Ev.close "zzz", Ev.start "p" [], Ev.text c2secret, Ev.close "p"] ++
      [Ev.close "nav"] ++ [Ev.close "div"] ∧
    (runA c2doc initState).content_blocks = [c2secret] := by
  refine ⟨by decide, by decide, rfl, by decide⟩

lemma removeFirstOcc_of_not_mem (t : String) (l : List String) (h : t ∉ l) :
    removeFirstOcc t l = l := by
  induction l with
  | nil => rfl
  | cons x xs ih =>
    rw [removeFirstOcc]
    rw [if_neg (by intro hx; exact h (hx ▸ List.mem_cons_self x xs))]
    rw [ih (fun hm => h (List.mem_cons_of_mem x hm))]

lemma popNearest_of_not_mem (t : String) (l : List String) (h : t ∉ l) :
    popNearest t l = l := by
  unfold popNearest
  rw [removeFirstOcc_of_not_mem t l.reverse (by simpa using h), List.reverse_reverse]

/-- C3 (amended): a close tag whose name matches no open tag on the stack
leaves the tag stack unchanged and raises no error, but the full parser state
is unchanged if and only if the parser is not in an excluded region and no
block flush fires (the tag is not a content tag, or the accumulator is
empty); otherwise exclusion bookkeeping or the flush still changes the state. -/
theorem C3_unmatched_close_amended :
    ∀ (s : ContentAnalyzer.St) (tag : String), tag ∉ s.current_tag_stack →
      (ContentAnalyzer.handle_endtag tag s).current_tag_stack = s.current_tag_stack ∧
      (ContentAnalyzer.handle_endtag tag s = s ↔
        (s.in_excluded = false ∧
          (tag ∉ ContentAnalyzer.CONTENT_TAGS ∨ s.current_block = []))) := by
  intro s tag hmem
  obtain ⟨bl, cur, stk, exc, dep⟩ := s
  simp only at hmem
  have hpop : popNearest tag stk = stk := popNearest_of_not_mem tag stk hmem
  cases exc with
  | false =>
    constructor
    · simp only [ContentAnalyzer.handle_endtag, hpop]
      split_ifs <;> rfl
    · simp [ContentAnalyzer.handle_endtag, hpop, ContentAnalyzer.St.mk.injEq]
      constructor
      · intro himp
        by_cases hc : tag ∈ ContentAnalyzer.CONTENT_TAGS
        · by_cases hcur : cur = []
          · exact Or.inr hcur
          · exact absurd (himp hc hcur).2 hcur
        · exact Or.inl hc
      · rintro (hout | hnil) hc hcur
        · exact absurd hc hout
        · exact (hcur hnil).elim
  | true =>
    constructor
    · simp only [ContentAnalyzer.handle_endtag, hpop]
      split_ifs <;> rfl
    · simp [ContentAnalyzer.handle_endtag, hpop]
      split_ifs
      all_goals intro heq
      all_goals have hed := congrArg ContentAnalyzer.St.excluded_depth heq
      all_goals have hie := congrArg ContentAnalyzer.St.in_excluded heq
      all_goals simp at hed hie
      all_goals omega

/-- Counterexample to C3 as stated: a close tag `p` matching no open tag on
the stack still changes the parser state (it flushes the pending block). -/
theorem C3_counterexample :
    "p" ∉ c3state.current_tag_stack ∧
    ContentAnalyzer.handle_endtag "p" c3state ≠ c3state := by
  refine ⟨by decide, by decide⟩

/-- Witness for the amended C3 at the initial state and an unknown tag. -/
theorem C3_unmatched_close_amended_witness :
    (ContentAnalyzer.handle_endtag "x" ContentAnalyzer.initState).current_tag_stack =
      ContentAnalyzer.initState.current_tag_stack ∧
    (ContentAnalyzer.handle_endtag "x" ContentAnalyzer.initState =
        ContentAnalyzer.initState ↔
      (ContentAnalyzer.initState.in_excluded = false ∧
        ("x" ∉ ContentAnalyzer.CONTENT_TAGS ∨
          ContentAnalyzer.initState.current_block = []))) :=
  C3_unmatched_close_amended ContentAnalyzer.initState "x" (by decide)

lemma joinDD_length : ∀ parts : List (List Char),
    (joinDD parts).length = (parts.map List.length).sum + 2 * (parts.length - 1) := by
  intro parts
  induction parts using joinDD.induct with
  | case1 => simp [joinDD]
  | case2 x => simp [joinDD]
  | case3 x y xs ih =>
    rw [joinDD]
    simp only [List.length_append, List.length_cons, List.map_cons, List.sum_cons,
      List.length_cons] at ih ⊢
    omega

lemma sumLens_accumulate1 : ∀ (l : List (ℚ × List Char)) (total : Nat),
    total ≤ EXTRACT_MAX_CHARS →
    ((accumulate1 total l).map List.length).sum ≤ EXTRACT_MAX_CHARS - total := by
  intro l
  induction l with
  | nil => intro total ht; simp [accumulate1]
  | cons p rest ih =>
    intro total ht
    obtain ⟨score, block⟩ := p
    rw [accumulate1]
    split_ifs with h1 h2 h3
    · simp
    · simp only [List.map_cons, List.map_nil, List.sum_cons, List.sum_nil]
      rw [List.length_take]
      omega
    · simp
    · simp only [List.map_cons, List.sum_cons]
      have hrec := ih (total + block.length) (by omega)
      omega

lemma sumLens_accumulate2 : ∀ (l : List (ℚ × List Char)) (total : Nat),
    total ≤ EXTRACT_MAX_CHARS →
    ((accumulate2 total l).map List.length).sum ≤ EXTRACT_MAX_CHARS - total + 1 := by
  intro l
  induction l with
  | nil => intro total ht; simp [accumulate2]
  | cons p rest ih =>
    intro total ht
    obtain ⟨score, para⟩ := p
    rw [accumulate2]
    split_ifs with h1 h2 h3
    · simp
    · simp only [List.map_cons, List.map_nil, List.sum_cons, List.sum_nil,
        List.length_append, List.length_take, List.length_singleton]
      omega
    · simp
    · simp only [List.map_cons, List.sum_cons]
      have hrec := ih (total + para.length) (by omega)
      omega

lemma strat1_shape (blocks : List (List Char)) (q r : List Char)
    (h : strat1 blocks q = some r) :
    ∃ sorted, accumulate1 0 sorted ≠ [] ∧ r = joinDD (accumulate1 0 sorted) := by
  simp only [strat1] at h
  split_ifs at h with h1 h2 h3
  exact ⟨sortDesc (blocks.map (fun b => (combinedScore q b, b))),
    h2, (Option.some.inj h).symm⟩

lemma strat2_shape (trafOut : Option (List Char)) (q r : List Char)
    (h : strat2 trafOut q = some r) :
    (∃ sorted, accumulate2 0 sorted ≠ [] ∧ r = joinDD (accumulate2 0 sorted)) ∨
    (∃ text : List Char, r = text.take EXTRACT_MAX_CHARS) := by
  cases trafOut with
  | none => exact Option.noConfusion h
  | some text =>
    simp only [strat2] at h
    split_ifs at h with h1 h2
    · exact Or.inl ⟨_, h1.2, (Option.some.inj h).symm⟩
    · exact Or.inr ⟨text, (Option.some.inj h).symm⟩

/-- C1 (amended): whenever `_extract_enhanced` returns a string, that string is
the double-newline join of selected parts whose total length is at most
`EXTRACT_MAX_CHARS + 1` (the one ellipsis marker), and the length of the
returned string equals that total plus exactly two separator characters per
additional part.  The bound of the original claim fails only because the
joined separators are not counted against the budget (see the
counterexample). -/
theorem C1_output_budget_amended :
    ∀ (lex : List Char → List Ev) (traf : List Char → Option (List Char))
      (html : List Char) (url : String) (query r : List Char),
      _extract_enhanced lex traf html url query = some r →
      ∃ parts : List (List Char), parts ≠ [] ∧ r = joinDD parts ∧
        (parts.map List.length).sum ≤ EXTRACT_MAX_CHARS + 1 ∧
        r.length = (parts.map List.length).sum + 2 * (parts.length - 1) := by
  intro lex traf html url query r h
  rw [_extract_enhanced] at h
  split_ifs at h with h1
  cases hs : strat1 (runA (lex html) ContentAnalyzer.initState).content_blocks query with
  | some r1 =>
    rw [hs] at h
    have h2 : some r1 = some r := h
    obtain rfl : r1 = r := Option.some.inj h2
    obtain ⟨sorted, hne, rfl⟩ := strat1_shape _ _ _ hs
    refine ⟨accumulate1 0 sorted, hne, rfl, ?_, joinDD_length _⟩
    have hb := sumLens_accumulate1 sorted 0 (by norm_num)
    omega
  | none =>
    rw [hs] at h
    have h2 : strat2 (traf html) query = some r := h
    rcases strat2_shape _ _ _ h2 with ⟨sorted, hne, rfl⟩ | ⟨text, rfl⟩
    · refine ⟨accumulate2 0 sorted, hne, rfl, ?_, joinDD_length _⟩
      have hb := sumLens_accumulate2 sorted 0 (by norm_num)
      omega
    · refine ⟨[text.take EXTRACT_MAX_CHARS], by simp, by rfl, ?_, ?_⟩
      · simp only [List.map_cons, List.map_nil, List.sum_cons, List.sum_nil,
          List.length_take]
        omega
      · simp [joinDD]

lemma c1block_length : c1block.length = 4500 := by
  rw [c1block, repBlock_length]

lemma c1block_strip : pyStrip c1block = c1block :=
  pyStrip_repBlock 'a' 4499 (by norm_num) (by decide)

lemma c1_analyzer_run :
    runA c1doc ContentAnalyzer.initState =
      ⟨[c1block, c1block], [], [], false, 0⟩ := by
  have hstart : ∀ bl : List (List Char),
      ContentAnalyzer.handle_starttag "div" [] ⟨bl, [], [], false, 0⟩ =
        ⟨bl, [], ["div"], false, 0⟩ := by
    intro bl
    simp [ContentAnalyzer.handle_starttag, ContentAnalyzer.EXCLUDED_TAGS,
      ContentAnalyzer.attrsExcluded, ContentAnalyzer.matchesExcludedPatterns,
      ContentAnalyzer.adPatternHit, ContentAnalyzer.PATTERN_LITERALS, dictGet,
      isSubL, findSub]
  have hdata : ∀ bl : List (List Char),
      ContentAnalyzer.handle_data c1block ⟨bl, [], ["div"], false, 0⟩ =
        ⟨bl, [c1block], ["div"], false, 0⟩ := by
    intro bl
    simp [ContentAnalyzer.handle_data, c1block,
      pyStrip_repBlock 'a' 4499 (by norm_num) (by decide),
      repBlock_ne_nil 'a' 4499]
  have hclose : ∀ bl : List (List Char),
      ContentAnalyzer.handle_endtag "div" ⟨bl, [c1block], ["div"], false, 0⟩ =
        ⟨bl ++ [c1block], [], [], false, 0⟩ := by
    intro bl
    have hjoin : joinSpace [c1block] = c1block := rfl
    have hlen : 50 < (pyStrip (joinSpace [c1block])).length := by
      rw [hjoin, c1block_strip, c1block_length]
      norm_num
    simp [ContentAnalyzer.handle_endtag, popNearest, removeFirstOcc,
      ContentAnalyzer.CONTENT_TAGS, hjoin, c1block_strip, hlen, c1block_length]
  show runA c1doc ContentAnalyzer.initState = _
  rw [c1doc, runA_cons, runA_cons, runA_cons, runA_cons, runA_cons, runA_cons]
  rw [show ContentAnalyzer.initState = ⟨[], [], [], false, 0⟩ from rfl]
  rw [show stepEv ⟨[], [], [], false, 0⟩ (Ev.start "div" []) =
    ⟨[], [], ["div"], false, 0⟩ from hstart []]
  rw [show stepEv ⟨[], [], ["div"], false, 0⟩ (Ev.text c1block) =
    ⟨[], [c1block], ["div"], false, 0⟩ from hdata []]
  rw [show stepEv ⟨[], [c1block], ["div"], false, 0⟩ (Ev.close "div") =
    ⟨[c1block], [], [], false, 0⟩ from hclose []]
  rw [show stepEv ⟨[c1block], [], [], false, 0⟩ (Ev.start "div" []) =
    ⟨[c1block], [], ["div"], false, 0⟩ from hstart [c1block]]
  rw [show stepEv ⟨[c1block], [], ["div"], false, 0⟩ (Ev.text c1block) =
    ⟨[c1block], [c1block], ["div"], false, 0⟩ from hdata [c1block]]
  rw [show stepEv ⟨[c1block], [c1block], ["div"], false, 0⟩ (Ev.close "div") =
    ⟨[c1block, c1block], [], [], false, 0⟩ from hclose [c1block]]
  rfl

lemma c1_score_ge : ¬ combinedScore [] c1block < 0.1 := by
  rw [combinedScore_empty_query, c1block,
    density_repBlock 'a' 4499 (by norm_num) (by decide) (by decide) (by decide)
      (by decide) (by decide)]
  norm_num [min_def, max_def]

lemma c1_sort :
    sortDesc [(combinedScore [] c1block, c1block), (combinedScore [] c1block, c1block)] =
      [(combinedScore [] c1block, c1block), (combinedScore [] c1block, c1block)] := by
  simp [sortDesc, insDesc]

lemma c1_acc :
    accumulate1 0 [(combinedScore [] c1block, c1block), (combinedScore [] c1block, c1block)] =
      [c1block, c1block] := by
  simp [accumulate1, c1_score_ge, c1block_length, EXTRACT_MAX_CHARS]

lemma c1_strat1 : strat1 [c1block, c1block] [] = some c1result := by
  have hlen100 : 100 < (joinDD [c1block, c1block]).length := by
    rw [joinDD_length]
    simp [c1block_length]
  simp only [strat1, List.map_cons, List.map_nil, c1_sort, c1_acc]
  rw [if_neg (by simp), if_neg (by simp), if_pos hlen100]
  rfl

/-- Counterexample to C1 as stated: on a document with two 4500-character
content blocks and the empty query, `_extract_enhanced` returns a
9002-character string, exceeding `EXTRACT_MAX_CHARS` (9000) by more than the
length of one ellipsis marker, because the double-newline separator between
the two selected blocks is not counted against the character budget. -/
theorem C1_counterexample :
    _extract_enhanced c1lex c1traf ("x".data) "u" [] = some c1result ∧
    c1result.length = 9002 ∧ EXTRACT_MAX_CHARS + 1 < c1result.length := by
  have hlen : c1result.length = 9002 := by
    rw [c1result, joinDD_length]
    simp [c1block_length]
  refine ⟨?_, hlen, by rw [hlen]; norm_num [EXTRACT_MAX_CHARS]⟩
  rw [_extract_enhanced]
  rw [if_neg (by decide)]
  have hblocks : (runA (c1lex ("x".data)) ContentAnalyzer.initState).content_blocks =
      [c1block, c1block] := by
    rw [show c1lex ("x".data) = c1doc from rfl, c1_analyzer_run]
  rw [hblocks, c1_strat1]

/-- One div-open step of the analyzer on an idle state. -/
lemma startDiv_eval (bl : List (List Char)) :
    ContentAnalyzer.handle_starttag "div" [] ⟨bl, [], [], false, 0⟩ =
      ⟨bl, [], ["div"], false, 0⟩ := by
  simp [ContentAnalyzer.handle_starttag, ContentAnalyzer.EXCLUDED_TAGS,
    ContentAnalyzer.attrsExcluded, ContentAnalyzer.matchesExcludedPatterns,
    ContentAnalyzer.adPatternHit, ContentAnalyzer.PATTERN_LITERALS, dictGet,
    isSubL, findSub]

/-- One data step of the analyzer carrying a `repBlock`. -/
lemma dataRep_eval (n : Nat) (hn : 0 < n) (bl : List (List Char)) :
    ContentAnalyzer.handle_data (repBlock 'a' n) ⟨bl, [], ["div"], false, 0⟩ =
      ⟨bl, [repBlock 'a' n], ["div"], false, 0⟩ := by
  simp [ContentAnalyzer.handle_data,
    pyStrip_repBlock 'a' n hn (by decide), repBlock_ne_nil 'a' n]

/-- One div-close step of the analyzer flushing a pending `repBlock` longer
than the 50-character minimum. -/
lemma closeDiv_eval (n : Nat) (hn : 49 < n) (bl : List (List Char)) :
    ContentAnalyzer.handle_endtag "div" ⟨bl, [repBlock 'a' n], ["div"], false, 0⟩ =
      ⟨bl ++ [repBlock 'a' n], [], [], false, 0⟩ := by
  have hjoin : joinSpace [repBlock 'a' n] = repBlock 'a' n := rfl
  have hstrip : pyStrip (repBlock 'a' n) = repBlock 'a' n :=
    pyStrip_repBlock 'a' n (by omega) (by decide)
  have hlen : 50 < (pyStrip (joinSpace [repBlock 'a' n])).length := by
    rw [hjoin, hstrip, repBlock_length]
    omega
  simp [ContentAnalyzer.handle_endtag, popNearest, removeFirstOcc,
    ContentAnalyzer.CONTENT_TAGS, hjoin, hstrip, hlen]
  rw [repBlock_length]
  omega

/-- With the empty query, every `repBlock` scores at least the 0.1 cutoff
(its sentence-structure sub-score alone contributes 0.25 to the density). -/
lemma score_repBlock_ge (c : Char) (n : Nat) (hn : 0 < n)
    (hws : c.isWhitespace = false) (hal : c.isAlphanum = true)
    (hd : c ≠ '.') (he : c ≠ '!') (hq : c ≠ '?') :
    ¬ combinedScore [] (repBlock c n) < 0.1 := by
  rw [combinedScore_empty_query,
    density_repBlock c n hn hws hal hd he hq]
  have h1 : (0:ℚ) ≤ min ((n + 1 : ℚ) / 5000) 1 :=
    le_min (by positivity) zero_le_one
  have h2 : (0:ℚ) ≤ min ((1 / (n + 1 : ℚ)) * 10) 1 :=
    le_min (by positivity) zero_le_one
  have h3 : (0:ℚ) ≤ ((n : ℚ) / (n + 1 : ℚ)) := by positivity
  push_neg
  nlinarith

lemma c1w_analyzer_run :
    runA [Ev.start "div" [], Ev.text (repBlock 'a' 149), Ev.close "div"]
      ContentAnalyzer.initState = ⟨[repBlock 'a' 149], [], [], false, 0⟩ := by
  rw [runA_cons, runA_cons, runA_cons, runA_nil]
  rw [show ContentAnalyzer.initState = ⟨[], [], [], false, 0⟩ from rfl]
  rw [show stepEv ⟨[], [], [], false, 0⟩ (Ev.start "div" []) =
    ⟨[], [], ["div"], false, 0⟩ from startDiv_eval []]
  rw [show stepEv ⟨[], [], ["div"], false, 0⟩ (Ev.text (repBlock 'a' 149)) =
    ⟨[], [repBlock 'a' 149], ["div"], false, 0⟩ from dataRep_eval 149 (by norm_num) []]
  exact closeDiv_eval 149 (by norm_num) []

lemma c1w_strat1 : strat1 [repBlock 'a' 149] [] = some (repBlock 'a' 149) := by
  have hsort : sortDesc [(combinedScore [] (repBlock 'a' 149), repBlock 'a' 149)] =
      [(combinedScore [] (repBlock 'a' 149), repBlock 'a' 149)] := rfl
  have hacc : accumulate1 0 [(combinedScore [] (repBlock 'a' 149), repBlock 'a' 149)] =
      [repBlock 'a' 149] := by
    rw [accumulate1, if_neg (score_repBlock_ge 'a' 149 (by norm_num) (by decide)
      (by decide) (by decide) (by decide) (by decide)),
      if_neg (by rw [repBlock_length]; decide)]
    rfl
  simp only [strat1, List.map_cons, List.map_nil, hsort, hacc]
  rw [if_neg (by simp), if_neg (by simp),
    if_pos (by rw [show joinDD [repBlock 'a' 149] = repBlock 'a' 149 from rfl,
      repBlock_length]; norm_num)]
  rfl

lemma c1w_extract :
    _extract_enhanced c1wlex c1traf ("x".data) "u" [] = some (repBlock 'a' 149) := by
  rw [_extract_enhanced, if_neg (by decide)]
  have hblocks : (runA (c1wlex ("x".data)) ContentAnalyzer.initState).content_blocks =
      [repBlock 'a' 149] := by
    rw [show c1wlex ("x".data) =
      [Ev.start "div" [], Ev.text (repBlock 'a' 149), Ev.close "div"] from rfl,
      c1w_analyzer_run]
  rw [hblocks, c1w_strat1]

/-- Witness for the amended C1 at a small concrete document. -/
theorem C1_output_budget_amended_witness :
    ∃ parts : List (List Char), parts ≠ [] ∧ repBlock 'a' 149 = joinDD parts ∧
      (parts.map List.length).sum ≤ EXTRACT_MAX_CHARS + 1 ∧
      (repBlock 'a' 149).length = (parts.map List.length).sum + 2 * (parts.length - 1) :=
  C1_output_budget_amended c1wlex c1traf ("x".data) "u" [] (repBlock 'a' 149) c1w_extract

lemma accumAmendedAux_eq : ∀ (l : List (ℚ × List Char)) (acc : List (List Char))
    (total : Nat), accumAmendedAux acc total l = acc ++ accumulate1 total l := by
  intro l
  induction l with
  | nil => intro acc total; simp [accumAmendedAux, accumulate1]
  | cons p rest ih =>
    intro acc total
    obtain ⟨score, block⟩ := p
    rw [accumAmendedAux, accumulate1]
    split_ifs with h1 h2 h3 <;>
      simp_all [ih, List.append_assoc] <;> omega

/-- C8 (amended): the structured strategy of `_extract_enhanced` behaves as
the claim states, except that an overflowing block is truncated exactly when
STRICTLY MORE than 200 characters of budget remain; the structured result is
returned when it succeeds, and otherwise control falls through to the
trafilatura fallback strategy. -/
theorem C8_structured_strategy_amended :
    (∀ (blocks : List (List Char)) (q : List Char),
      strat1 blocks q = strat1Amended blocks q) ∧
    (∀ (lex : List Char → List Ev) (traf : List Char → Option (List Char))
      (html : List Char) (url : String) (q r : List Char), html ≠ [] →
      (strat1 (runA (lex html) ContentAnalyzer.initState).content_blocks q = some r →
        _extract_enhanced lex traf html url q = some r) ∧
      (strat1 (runA (lex html) ContentAnalyzer.initState).content_blocks q = none →
        _extract_enhanced lex traf html url q = strat2 (traf html) q)) := by
  constructor
  · intro blocks q
    simp only [strat1, strat1Amended, accumAmendedAux_eq, List.nil_append]
  · intro lex traf html url q r hhtml
    constructor
    · intro hs
      rw [_extract_enhanced, if_neg hhtml, hs]
    · intro hs
      rw [_extract_enhanced, if_neg hhtml, hs]

/-- Witness for the amended C8: on a lexer yielding no blocks the structured
strategy fails and `_extract_enhanced` falls through to strategy 2. -/
theorem C8_structured_strategy_amended_witness :
    strat1 [] ([] : List Char) = strat1Amended [] [] ∧
    _extract_enhanced (fun _ => []) (fun _ => none) ("x".data) "u" [] =
      strat2 ((fun (_ : List Char) => (none : Option (List Char))) ("x".data)) [] :=
  ⟨C8_structured_strategy_amended.1 [] [],
   (C8_structured_strategy_amended.2 (fun _ => []) (fun _ => none) ("x".data) "u" [] []
      (by decide)).2 rfl⟩

lemma c8_cmp : combinedScore [] c8b2 ≤ combinedScore [] c8b1 := by
  rw [combinedScore_empty_query, combinedScore_empty_query, c8b1, c8b2,
    density_repBlock 'a' 8799 (by norm_num) (by decide) (by decide) (by decide)
      (by decide) (by decide),
    density_repBlock 'b' 299 (by norm_num) (by decide) (by decide) (by decide)
      (by decide) (by decide)]
  norm_num [min_def, max_def]

lemma c8_sort :
    sortDesc [(combinedScore [] c8b1, c8b1), (combinedScore [] c8b2, c8b2)] =
      [(combinedScore [] c8b1, c8b1), (combinedScore [] c8b2, c8b2)] := by
  show insDesc _ (insDesc _ []) = _
  rw [insDesc, insDesc, if_pos c8_cmp]

lemma c8_score1 : ¬ combinedScore [] c8b1 < 0.1 := by
  rw [c8b1]
  exact score_repBlock_ge 'a' 8799 (by norm_num) (by decide) (by decide)
    (by decide) (by decide) (by decide)

lemma c8_score2 : ¬ combinedScore [] c8b2 < 0.1 := by
  rw [c8b2]
  exact score_repBlock_ge 'b' 299 (by norm_num) (by decide) (by decide)
    (by decide) (by decide) (by decide)

lemma c8b1_length : c8b1.length = 8800 := by rw [c8b1, repBlock_length]

lemma c8b2_length : c8b2.length = 300 := by rw [c8b2, repBlock_length]

lemma c8_acc_code :
    accumulate1 0 [(combinedScore [] c8b1, c8b1), (combinedScore [] c8b2, c8b2)] =
      [c8b1] := by
  rw [accumulate1, if_neg c8_score1, if_neg (by rw [c8b1_length]; decide)]
  rw [accumulate1, if_neg c8_score2,
    if_pos (by rw [c8b1_length, c8b2_length]; decide)]
  rw [if_neg (by rw [c8b1_length]; decide)]

lemma c8_acc_claim :
    accumulateClaim 0 [(combinedScore [] c8b1, c8b1), (combinedScore [] c8b2, c8b2)] =
      [c8b1, c8b2.take 200] := by
  rw [accumulateClaim, if_neg c8_score1, if_neg (by rw [c8b1_length]; decide)]
  rw [accumulateClaim, if_neg c8_score2,
    if_pos (by rw [c8b1_length, c8b2_length]; decide)]
  rw [if_pos (by rw [c8b1_length]; decide)]
  rw [show (0 : Nat) + c8b1.length = 8800 from by rw [c8b1_length],
    show EXTRACT_MAX_CHARS - 8800 = 200 from by decide]

lemma c8_strat1 : strat1 [c8b1, c8b2] [] = some c8b1 := by
  simp only [strat1, List.map_cons, List.map_nil, c8_sort, c8_acc_code]
  rw [if_neg (by simp), if_neg (by simp),
    if_pos (by rw [show joinDD [c8b1] = c8b1 from rfl, c8b1_length]; norm_num)]
  rfl

lemma c8_take_length : (c8b2.take 200).length = 200 := by
  rw [List.length_take, c8b2_length]
  decide

lemma c8_strat1Claim :
    strat1Claim [c8b1, c8b2] [] = some (joinDD [c8b1, c8b2.take 200]) := by
  have hjl : (joinDD [c8b1, c8b2.take 200]).length = 9002 := by
    rw [joinDD_length]
    simp only [List.map_cons, List.map_nil, List.sum_cons, List.sum_nil,
      List.length_cons, List.length_nil, List.length_take, c8b1_length, c8b2_length]
    omega
  simp only [strat1Claim, List.map_cons, List.map_nil, c8_sort, c8_acc_claim]
  rw [if_neg (by simp), if_neg (by simp), if_pos (by rw [hjl]; norm_num)]

/-- Counterexample to C8 as stated: with a first block of 8800 characters and
a second overflowing block, exactly 200 characters of budget remain — at
least 200, as the claim requires for truncation — yet the code drops the
second block entirely (it truncates only when strictly more than 200
characters remain), so the structured strategy disagrees with the claim. -/
theorem C8_counterexample :
    strat1 [c8b1, c8b2] [] = some c8b1 ∧
    strat1Claim [c8b1, c8b2] [] = some (joinDD [c8b1, c8b2.take 200]) ∧
    strat1 [c8b1, c8b2] [] ≠ strat1Claim [c8b1, c8b2] [] ∧
    EXTRACT_MAX_CHARS - c8b1.length = 200 ∧
    EXTRACT_MAX_CHARS < c8b1.length + c8b2.length := by
  have hjl : (joinDD [c8b1, c8b2.take 200]).length = 9002 := by
    rw [joinDD_length]
    simp only [List.map_cons, List.map_nil, List.sum_cons, List.sum_nil,
      List.length_cons, List.length_nil, List.length_take, c8b1_length, c8b2_length]
    omega
  refine ⟨c8_strat1, c8_strat1Claim, ?_, by rw [c8b1_length]; decide,
    by rw [c8b1_length, c8b2_length]; decide⟩
  rw [c8_strat1, c8_strat1Claim]
  intro h
  have h2 := congrArg List.length (Option.some.inj h)
  rw [c8b1_length, hjl] at h2
  omega

lemma postProcess_length (t : List Char) :
    (postProcess t).length ≤ EXTRACT_MAX_CHARS + 1 := by
  rw [postProcess]
  split_ifs with h
  · rw [List.length_append, List.length_take, List.length_singleton]
    omega
  · omega

lemma postProcess_stripped (t : List Char) : pyStrip (postProcess t) = postProcess t := by
  rw [postProcess]
  split_ifs with h
  · apply pyStrip_eq_self
    · intro a ha
      have hne : pyStrip t ≠ [] := by
        intro hnil
        rw [hnil] at h
        simp [EXTRACT_MAX_CHARS] at h
      have htake : ((pyStrip t).take EXTRACT_MAX_CHARS ++ ['…']).head? =
          (pyStrip t).head? := by
        rw [List.head?_append_of_ne_nil, List.head?_take]
        · simp [EXTRACT_MAX_CHARS]
        · intro hnil
          rw [List.take_eq_nil_iff] at hnil
          rcases hnil with h1 | h1
          · simp [EXTRACT_MAX_CHARS] at h1
          · exact hne h1
      rw [htake] at ha
      exact pyStrip_head_not_ws t a ha
    · intro a ha
      rw [List.reverse_append] at ha
      simp only [List.reverse_cons, List.reverse_nil, List.nil_append,
        List.singleton_append, List.head?_cons, Option.mem_def,
        Option.some.injEq] at ha
      rw [← ha]
      decide
  · exact pyStrip_idem t

/-- C10: every text returned by `fetch_and_extract` is stripped (no leading or
trailing whitespace) and at most `EXTRACT_MAX_CHARS + 1` characters long: the
per-fetch re-truncation enforces the budget at the public interface for any
behaviour of the network, tokenizer and trafilatura oracles. -/
theorem C10_fetch_output_bounded :
    ∀ (net : String → Option (List Char)) (lex : List Char → List Ev)
      (traf : List Char → Option (List Char)) (query : List Char) (url : String)
      (t : List Char),
      (fetch_and_extract net lex traf query url).2 = some t →
      t.length ≤ EXTRACT_MAX_CHARS + 1 ∧ pyStrip t = t := by
  intro net lex traf query url t h
  rw [fetch_and_extract] at h
  rcases hnet : net url with _ | raw
  · rw [hnet] at h
    exact Option.noConfusion h
  · rw [hnet] at h
    have h1 : (match _extract_enhanced lex traf raw url query with
        | none => ((url, none) : String × Option (List Char))
        | some text =>
          if text = [] then (url, none) else (url, some (postProcess text))).2 =
        some t := h
    rcases hext : _extract_enhanced lex traf raw url query with _ | text
    · rw [hext] at h1
      exact Option.noConfusion h1
    · rw [hext] at h1
      have h2 : (if text = []
          then ((url, none) : String × Option (List Char))
          else (url, some (postProcess text))).2 = some t := h1
      by_cases htext : text = []
      · rw [if_pos htext] at h2
        exact Option.noConfusion h2
      · rw [if_neg htext] at h2
        have h3 : some (postProcess text) = some t := h2
        obtain rfl : postProcess text = t := Option.some.inj h3
        exact ⟨postProcess_length text, postProcess_stripped text⟩

lemma c10_fetch :
    fetch_and_extract c10net c1wlex c1traf [] "u" =
      ("u", some (repBlock 'a' 149)) := by
  rw [fetch_and_extract]
  show (match _extract_enhanced c1wlex c1traf ("x".data) "u" [] with
      | none => (("u", none) : String × Option (List Char))
      | some text =>
        if text = [] then ("u", none) else ("u", some (postProcess text))) = _
  rw [c1w_extract]
  show (if repBlock 'a' 149 = []
      then (("u", none) : String × Option (List Char))
      else ("u", some (postProcess (repBlock 'a' 149)))) = _
  rw [if_neg (repBlock_ne_nil 'a' 149)]
  rw [postProcess, pyStrip_repBlock 'a' 149 (by norm_num) (by decide),
    if_neg (by rw [repBlock_length]; decide)]

/-- Witness for C10 at a concrete successful fetch. -/
theorem C10_fetch_output_bounded_witness :
    (repBlock 'a' 149).length ≤ EXTRACT_MAX_CHARS + 1 ∧
      pyStrip (repBlock 'a' 149) = repBlock 'a' 149 :=
  C10_fetch_output_bounded c10net c1wlex c1traf [] "u" (repBlock 'a' 149)
    (by rw [c10_fetch])

lemma fst_fetch_and_extract (net : String → Option (List Char))
    (lex : List Char → List Ev) (traf : List Char → Option (List Char))
    (query : List Char) (u : String) :
    (fetch_and_extract net lex traf query u).1 = u := by
  rw [fetch_and_extract]
  rcases net u with _ | raw
  · rfl
  · show (match _extract_enhanced lex traf raw u query with
      | none => ((u, none) : String × Option (List Char))
      | some text =>
        if text = [] then (u, none) else (u, some (postProcess text))).1 = u
    rcases _extract_enhanced lex traf raw u query with _ | text
    · rfl
    · show (if text = [] then ((u, none) : String × Option (List Char))
        else (u, some (postProcess text))).1 = u
      split_ifs <;> rfl

/-- C9: `fetch_pages` returns exactly the truthy extractions, as pairs in the
same relative order as the input URL list (its projection to URLs is a
sublist of the input); a URL whose fetch fails or whose extraction yields no
text maps to `(url, none)`, is excluded from the result, and the outcome of a
URL depends only on the network response for that URL. -/
theorem C9_fetch_pages_order_and_failures :
    ∀ (net : String → Option (List Char)) (lex : List Char → List Ev)
      (traf : List Char → Option (List Char)) (query : List Char)
      (urls : List String),
      fetch_pages net lex traf query urls =
        urls.filterMap (fun u =>
          match (fetch_and_extract net lex traf query u).2 with
          | some t => if t = [] then none else some (u, t)
          | none => none) ∧
      List.Sublist ((fetch_pages net lex traf query urls).map Prod.fst) urls ∧
      (∀ u, net u = none → fetch_and_extract net lex traf query u = (u, none)) ∧
      (∀ u, (fetch_and_extract net lex traf query u).1 = u) ∧
      (∀ u raw, net u = some raw → _extract_enhanced lex traf raw u query = none →
        fetch_and_extract net lex traf query u = (u, none)) ∧
      (∀ (net2 : String → Option (List Char)) u, net u = net2 u →
        fetch_and_extract net lex traf query u =
          fetch_and_extract net2 lex traf query u) := by
  intro net lex traf query urls
  have hfst := fst_fetch_and_extract net lex traf query
  have hmain : fetch_pages net lex traf query urls =
      urls.filterMap (fun u =>
        match (fetch_and_extract net lex traf query u).2 with
        | some t => if t = [] then none else some (u, t)
        | none => none) := by
    rw [fetch_pages, List.filterMap_map]
    apply List.filterMap_congr
    intro u hu
    show (match (fetch_and_extract net lex traf query u).2 with
      | some t => if t = [] then none
        else some ((fetch_and_extract net lex traf query u).1, t)
      | none => none) = _
    rw [hfst u]
  refine ⟨hmain, ?_, ?_, hfst, ?_, ?_⟩
  · rw [hmain]
    clear hmain
    induction urls with
    | nil => simp
    | cons u us ih =>
      rw [List.filterMap_cons]
      rcases hv : (fetch_and_extract net lex traf query u).2 with _ | t
      · simp only
        exact ih.cons u
      · simp only
        split_ifs with ht
        · exact ih.cons u
        · simp only [List.map_cons]
          exact ih.cons₂ u
  · intro u hnet
    rw [fetch_and_extract, hnet]
  · intro u raw hnet hext
    rw [fetch_and_extract, hnet]
    show (match _extract_enhanced lex traf raw u query with
      | none => ((u, none) : String × Option (List Char))
      | some text =>
        if text = [] then (u, none) else (u, some (postProcess text))) = (u, none)
    rw [hext]
  · intro net2 u hagree
    rw [fetch_and_extract, fetch_and_extract, hagree]

/-- Witness for C9: a failed fetch maps to the failure outcome, and the
outcome only depends on the response for that URL. -/
theorem C9_fetch_pages_order_and_failures_witness :
    fetch_and_extract c9net c9lex c1traf [] "u" = ("u", none) ∧
    fetch_and_extract c9net c9lex c1traf [] "u" =
      fetch_and_extract c9net2 c9lex c1traf [] "u" :=
  ⟨(C9_fetch_pages_order_and_failures c9net c9lex c1traf [] []).2.2.1 "u" rfl,
   (C9_fetch_pages_order_and_failures c9net c9lex c1traf [] []).2.2.2.2.2 c9net2 "u" rfl⟩
